import Mathlib

/- Verification development for the busy-bee work-time tracker.

The Rust sources are embedded shallowly:
- `data.rs`: events, the persisted one-line-per-event text format, parsing and
  serialization, and the delete-by-position operation, modelled at the level of
  file content (lists of characters), since the file system itself is an
  external collaborator.
- `view.rs`: the duration engine `working_time`, the per-day report
  aggregation `report_days`, and the calendar-week computation of
  `weekly_report`.

Machine integers are modelled as `Int`/`Nat`; the `u32::try_from`
conversions of `working_time` are modelled as `Option`, and the wrapping
`u32` subtraction in `weekly_report` is modelled modulo `2 ^ 32`. -/

namespace BusyBee

/-- Characters of persisted text; the persistence layer is modelled on
character lists, mirroring Rust `str` operations. -/
abbrev Str := List Char

/-- Clock event kind, from `EventKind` in `data.rs`. -/
inductive EventKind where
  | ClockIn
  | ClockOut
deriving DecidableEq, Repr

/-- A point in time with civil (proleptic Gregorian, UTC) fields, modelling
`chrono::DateTime<Utc>`: chrono stores a calendar date, a time of day and
nanoseconds. -/
structure Timestamp where
  year : Int
  month : Nat
  day : Nat
  hour : Nat
  minute : Nat
  second : Nat
  nano : Nat
deriving DecidableEq, Repr

/-- Days since 1970-01-01 of a civil date (proleptic Gregorian); the standard
era-based calendar arithmetic used by calendar libraries such as chrono. -/
def daysFromCivil (y : Int) (m d : Nat) : Int :=
  let y2 : Int := if m ≤ 2 then y - 1 else y
  let era : Int := Int.fdiv y2 400
  let yoe : Nat := (y2 - era * 400).toNat
  let mp : Nat := (m + 9) % 12
  let doy : Nat := (153 * mp + 2) / 5 + d - 1
  let doe : Nat := yoe * 365 + yoe / 4 - yoe / 100 + doy
  era * 146097 + (doe : Int) - 719468

/-- Epoch days of an event timestamp's date. -/
def Timestamp.dateDays (t : Timestamp) : Int := daysFromCivil t.year t.month t.day

/-- Seconds into the day. -/
def Timestamp.timeOfDay (t : Timestamp) : Nat :=
  t.hour * 3600 + t.minute * 60 + t.second

/-- The instant of a timestamp, in nanoseconds since the epoch; differences of
instants are what `chrono::DateTime::sub` returns (as a `TimeDelta`). -/
def Timestamp.instant (t : Timestamp) : Int :=
  (t.dateDays * 86400 + (t.timeOfDay : Int)) * 1000000000 + (t.nano : Int)

/-- A clock event, from `Event` in `data.rs`. -/
structure Event where
  kind : EventKind
  dt : Timestamp
deriving DecidableEq, Repr

/- ----------------------------------------------------------------
   Duration engine: `working_time` in `view.rs`.
   ---------------------------------------------------------------- -/

/-- Accumulator of the fold inside `working_time` (`view.rs` lines 179-214):
running duration (nanoseconds), completeness flag, optional pending clock-in. -/
structure WtState where
  dur : Int
  complete : Bool
  pending : Option Event
deriving DecidableEq, Repr

/-- One step of the fold in `working_time`, matching its four match arms. -/
def wtStep (st : WtState) (e : Event) : WtState :=
  match st.pending, e.kind with
  | none, .ClockIn => ⟨st.dur, st.complete, some e⟩
  | none, .ClockOut => ⟨st.dur, false, none⟩
  | some _, .ClockIn => ⟨st.dur, false, some e⟩
  | some p, .ClockOut => ⟨st.dur + (e.dt.instant - p.dt.instant), st.complete, none⟩

/-- The fold of `working_time` over the event list, from the initial state
(zero duration, complete, no pending clock-in). -/
def wtFold (evs : List Event) : WtState := evs.foldl wtStep ⟨0, true, none⟩

/-- The result record of the duration engine (`WorkingTime` in `view.rs`);
its `hours` and `minutes` are `u32` in the source. -/
structure WorkingTime where
  hours : Nat
  minutes : Nat
  complete : Bool
deriving DecidableEq, Repr

/-- Rust `u32::try_from` applied to an `i64`: succeeds exactly in range. -/
def toU32 (x : Int) : Option Nat :=
  if 0 ≤ x ∧ x < 4294967296 then some x.toNat else none

/-- The duration engine `working_time` (`view.rs` lines 178-223). The final
conversions `worked.num_hours().try_into().unwrap()` and
`(worked.num_minutes() % 60).try_into().unwrap()` are fallible: `none` models
the panic of a failing `unwrap`. `num_seconds`, `num_minutes`, `num_hours`
and Rust `/`, `%` on `i64` truncate toward zero, hence `tdiv`/`tmod`. -/
def workingTime (evs : List Event) : Option WorkingTime :=
  match toU32 (Int.tdiv (Int.tdiv (wtFold evs).dur 1000000000) 3600),
        toU32 (Int.tmod (Int.tdiv (Int.tdiv (wtFold evs).dur 1000000000) 60) 60) with
  | some h, some m => some ⟨h, m, (wtFold evs).complete⟩
  | _, _ => none

/- ----------------------------------------------------------------
   Report aggregation: `report_days` in `view.rs`.
   ---------------------------------------------------------------- -/

/-- Insert a key into a sorted duplicate-free key list (the key set of the
`BTreeMap` in `report_days`, which iterates in ascending key order). -/
def insertKey (k : Nat) : List Nat → List Nat
  | [] => [k]
  | x :: xs =>
    if k < x then k :: x :: xs
    else if k = x then x :: xs
    else x :: insertKey k xs

/-- The ascending set of `event.dt.day()` values occurring in the list:
the keys of the `BTreeMap` built by `report_days` (`view.rs` line 132 keys
the map by `event.dt.day()`, the bare day of month). -/
def dayKeys (evs : List Event) : List Nat :=
  evs.foldr (fun e ks => insertKey e.dt.day ks) []

/-- The grouped events of `report_days`, in ascending key order; each group
keeps the original (encounter) order, as the `Vec` values of the map do. -/
def eventsPerDay (evs : List Event) : List (Nat × List Event) :=
  (dayKeys evs).map (fun k => (k, evs.filter (fun e => e.dt.day == k)))

/-- Rust `format!("{n:02}")`: zero-pad to width two. -/
def pad2Str (n : Nat) : String :=
  if n < 10 then "0" ++ toString n else toString n

/-- One rendered per-day row of `report_days`. -/
structure DayRow where
  day : Nat
  recordedTime : String
  comment : String
deriving DecidableEq, Repr

/-- The content `report_days` renders: the per-day rows and the grand-total
hours and minutes. The total is taken from `working_time` over the whole
list with its completeness flag discarded (`complete: _` in the source), so
the structure has no completeness field for the total. -/
structure DaysReport where
  rows : List DayRow
  totalHours : Nat
  totalMinutes : Nat
deriving DecidableEq, Repr

/-- Build one row of `report_days` (`view.rs` lines 137-154): an incomplete
day gets recorded time `?` and the incompleteness comment. -/
def mkDayRow (k : Nat) (wt : WorkingTime) : DayRow :=
  ⟨k,
    if wt.complete then pad2Str wt.hours ++ ":" ++ pad2Str wt.minutes else "?",
    if wt.complete then "" else "Incomplete records, please update"⟩

/-- `report_days` (`view.rs` lines 125-164): group by day-of-month, render a
row per group, then the grand total over the unfiltered list. `none` models a
panic inside some `working_time` call. -/
def reportDays (evs : List Event) : Option DaysReport :=
  match (eventsPerDay evs).mapM (fun kg => (workingTime kg.2).map (mkDayRow kg.1)) with
  | none => none
  | some rows =>
    match workingTime evs with
    | none => none
    | some total => some ⟨rows, total.hours, total.minutes⟩

/-- The grand-total line rendered after the per-day rows
(`view.rs` line 161). -/
def totalLine (r : DaysReport) : String :=
  "Total working time: " ++ pad2Str r.totalHours ++ ":" ++ pad2Str r.totalMinutes ++ " hours"

/- ----------------------------------------------------------------
   Calendar week: `weekly_report` in `view.rs`.
   ---------------------------------------------------------------- -/

/-- A calendar date (`chrono::NaiveDate`). -/
structure Date where
  year : Int
  month : Nat
  day : Nat
deriving DecidableEq, Repr

/-- Epoch days of a date. -/
def Date.days (d : Date) : Int := daysFromCivil d.year d.month d.day

/-- `Weekday::number_from_monday` of the weekday of an epoch-day number
(1970-01-01 was a Thursday): Monday = 1 .. Sunday = 7. -/
def weekdayNumberFromMonday (days : Int) : Nat :=
  ((days + 3) % 7).toNat + 1

/-- The `week_1_monday_offset` match of `weekly_report` (`view.rs` lines
100-108), indexed by the `number_from_monday` of Jan 1: offset in days from
Jan 1 to the Monday of the week containing the year's first Thursday. -/
def week1MondayOffset (wd : Nat) : Int :=
  match wd with
  | 1 => 0
  | 2 => -1
  | 3 => -2
  | 4 => -3
  | 5 => 3
  | 6 => 2
  | _ => 1

/-- Wrapping `u32` subtraction, as performed by
`date.weekday().number_from_monday() - date.day()` in `weekly_report`
(`view.rs` line 93) when built in release mode (a debug build panics on
underflow instead). -/
def sub32 (a b : Nat) : Nat := (a + 4294967296 - b) % 4294967296

/-- The `calendar_week` computation of `weekly_report` (`view.rs` lines
88-113): pick a year (previous year for some early-January dates, via the
wrapping subtraction), find the Monday of that year's ISO week 1, and count
weeks from it. `signed_duration_since(..).num_days() / 7` truncates toward
zero, hence `tdiv`. -/
def weeklyCalendarWeek (date : Date) : Int :=
  let nfm := weekdayNumberFromMonday date.days
  let year := if date.month = 1 ∧ 3 < sub32 nfm date.day then date.year - 1 else date.year
  let jan1 := daysFromCivil year 1 1
  let week1Monday := jan1 + week1MondayOffset (weekdayNumberFromMonday jan1)
  Int.tdiv (date.days - week1Monday) 7 + 1

/-- The Monday starting ISO week 1 of year `y` (the week containing the
year's first Thursday), in epoch days; follows the spec's definition of
week numbering. -/
def isoWeek1Monday (y : Int) : Int :=
  let jan1 := daysFromCivil y 1 1
  jan1 + week1MondayOffset (weekdayNumberFromMonday jan1)

/-- ISO-8601 week number of a date, following the spec's words: week 1 is
the week containing the year's first Thursday, weeks start Monday, and a
date near a year boundary may belong to a week of the previous or the next
ISO year. This is the specification-side definition that the report header
is compared against. -/
def isoWeekNumber (date : Date) : Int :=
  let n := date.days
  if isoWeek1Monday (date.year + 1) ≤ n then
    Int.tdiv (n - isoWeek1Monday (date.year + 1)) 7 + 1
  else if isoWeek1Monday date.year ≤ n then
    Int.tdiv (n - isoWeek1Monday date.year) 7 + 1
  else
    Int.tdiv (n - isoWeek1Monday (date.year - 1)) 7 + 1

/- ----------------------------------------------------------------
   Persistence layer: `data.rs`, modelled on file content.
   ---------------------------------------------------------------- -/

/-- The decimal digit character for `d % 10`. -/
def digitC (d : Nat) : Char := Char.ofNat (48 + d % 10)

/-- Numeric value of a digit character. -/
def charVal (c : Char) : Nat := c.toNat - 48

/-- Is the character an ASCII decimal digit? -/
def isDigitC (c : Char) : Bool := 48 ≤ c.toNat && c.toNat ≤ 57

/-- Zero-pad a number to two digits (Rust `{:02}` on a value below 100). -/
def pad2 (n : Nat) : Str := [digitC (n / 10), digitC n]

/-- Zero-pad to three digits. -/
def pad3 (n : Nat) : Str := [digitC (n / 100), digitC (n / 10), digitC n]

/-- Zero-pad to four digits (chrono prints the year of an in-range date with
`{:04}`). -/
def pad4 (n : Nat) : Str := [digitC (n / 1000), digitC (n / 100), digitC (n / 10), digitC n]

/-- Zero-pad to six digits. -/
def pad6 (n : Nat) : Str := pad3 (n / 1000) ++ pad3 n

/-- Zero-pad to nine digits. -/
def pad9 (n : Nat) : Str := pad3 (n / 1000000) ++ pad3 (n / 1000) ++ pad3 n

/-- The fractional-second part written by `chrono::DateTime::to_rfc3339`
(`SecondsFormat::AutoSi`): empty for zero nanoseconds, otherwise 3, 6 or 9
digits depending on the precision present. -/
def fracStr (nano : Nat) : Str :=
  if nano = 0 then []
  else if nano % 1000000 = 0 then '.' :: pad3 (nano / 1000000)
  else if nano % 1000 = 0 then '.' :: pad6 (nano / 1000)
  else '.' :: pad9 nano

/-- `chrono::DateTime<Utc>::to_rfc3339` for a timestamp with a four-digit
year: `YYYY-MM-DDTHH:MM:SS[.fff[fff[fff]]]+00:00`. -/
def toRfc3339 (t : Timestamp) : Str :=
  pad4 t.year.toNat ++ '-' :: pad2 t.month ++ '-' :: pad2 t.day
    ++ 'T' :: pad2 t.hour ++ ':' :: pad2 t.minute ++ ':' :: pad2 t.second
    ++ fracStr t.nano ++ ('+' :: '0' :: '0' :: ':' :: '0' :: '0' :: [])

/-- Scan exactly two digit characters. -/
def scan2 : Str → Option (Nat × Str)
  | a :: b :: r =>
    if isDigitC a && isDigitC b then some (charVal a * 10 + charVal b, r) else none
  | _ => none

/-- Scan exactly four digit characters. -/
def scan4 : Str → Option (Nat × Str)
  | a :: b :: c :: d :: r =>
    if isDigitC a && isDigitC b && isDigitC c && isDigitC d then
      some (((charVal a * 10 + charVal b) * 10 + charVal c) * 10 + charVal d, r)
    else none
  | _ => none

/-- Consume an expected character. -/
def expectC (ch : Char) : Str → Option Str
  | c :: r => if c = ch then some r else none
  | _ => none

/-- Longest prefix of digit characters, as numeric values. -/
def takeDigits : Str → List Nat × Str
  | [] => ([], [])
  | c :: r =>
    if isDigitC c then
      let p := takeDigits r
      (charVal c :: p.1, p.2)
    else ([], c :: r)

/-- Nanoseconds denoted by a fraction-digit list: the first nine digits are
significant (further digits are consumed and ignored, as chrono does). -/
def nanoOfDigits (ds : List Nat) : Nat :=
  (ds.take 9 ++ List.replicate (9 - ds.length) 0).foldl (fun a d => a * 10 + d) 0

/-- Scan an optional fractional-second part: a dot followed by at least one
digit. -/
def scanFrac : Str → Option (Nat × Str)
  | [] => some (0, [])
  | c :: r =>
    if c = '.' then
      match takeDigits r with
      | ([], _) => none
      | (ds, rest) => some (nanoOfDigits ds, rest)
    else some (0, c :: r)

/-- Scan an RFC 3339 offset: `Z`/`z`, or a sign with `HH:MM`; chrono rejects
offsets of a day or more. -/
def scanOffset : Str → Option (Int × Str)
  | 'Z' :: r => some (0, r)
  | 'z' :: r => some (0, r)
  | '+' :: r =>
    match scan2 r with
    | none => none
    | some (h, r1) =>
      match expectC ':' r1 with
      | none => none
      | some r2 =>
        match scan2 r2 with
        | none => none
        | some (m, r3) =>
          if h * 3600 + m * 60 < 86400 then some ((h * 3600 + m * 60 : Nat), r3) else none
  | '-' :: r =>
    match scan2 r with
    | none => none
    | some (h, r1) =>
      match expectC ':' r1 with
      | none => none
      | some r2 =>
        match scan2 r2 with
        | none => none
        | some (m, r3) =>
          if h * 3600 + m * 60 < 86400 then some (-(h * 3600 + m * 60 : Nat), r3) else none
  | _ => none

/-- The date-time separator accepted by chrono's RFC 3339 parser. -/
def scanSep : Str → Option Str
  | c :: r => if c = 'T' ∨ c = 't' ∨ c = ' ' then some r else none
  | [] => none

/-- Is `y-m-d` a valid civil date? Month lengths with Gregorian leap years. -/
def daysInMonth (y : Int) (m : Nat) : Nat :=
  if m = 2 then (if y % 4 = 0 ∧ (y % 100 ≠ 0 ∨ y % 400 = 0) then 29 else 28)
  else if m = 4 ∨ m = 6 ∨ m = 9 ∨ m = 11 then 30
  else 31

/-- Shift a timestamp by subtracting an offset of less than a day, the way
chrono turns the parsed local representation into a UTC instant: adjust the
time of day and move the civil date by at most one day. -/
def applyOffset (t : Timestamp) (off : Int) : Timestamp :=
  let tod : Int := (t.timeOfDay : Int) - off
  if tod < 0 then
    let tod2 := (tod + 86400).toNat
    let prev :=
      if t.day > 1 then (t.year, t.month, t.day - 1)
      else if t.month > 1 then (t.year, t.month - 1, daysInMonth t.year (t.month - 1))
      else (t.year - 1, 12, 31)
    ⟨prev.1, prev.2.1, prev.2.2, tod2 / 3600, tod2 / 60 % 60, tod2 % 60, t.nano⟩
  else if 86400 ≤ tod then
    let tod2 := (tod - 86400).toNat
    let next :=
      if t.day < daysInMonth t.year t.month then (t.year, t.month, t.day + 1)
      else if t.month < 12 then (t.year, t.month + 1, 1)
      else (t.year + 1, 1, 1)
    ⟨next.1, next.2.1, next.2.2, tod2 / 3600, tod2 / 60 % 60, tod2 % 60, t.nano⟩
  else
    let tod2 := tod.toNat
    ⟨t.year, t.month, t.day, tod2 / 3600, tod2 / 60 % 60, tod2 % 60, t.nano⟩

/-- `chrono::DateTime::parse_from_rfc3339` followed by
`.with_timezone(&Utc)`: strict four-digit year, field range validation, an
optional fraction, an offset, and nothing left over; the instant is
normalized to UTC. A leap second `60` is stored chrono-style as second 59
with a nanosecond count of at least one billion. -/
def parseRfc3339 (s : Str) : Option Timestamp :=
  match scan4 s with
  | none => none
  | some (y, s) =>
  match expectC '-' s with
  | none => none
  | some s =>
  match scan2 s with
  | none => none
  | some (mo, s) =>
  match expectC '-' s with
  | none => none
  | some s =>
  match scan2 s with
  | none => none
  | some (d, s) =>
  match scanSep s with
  | none => none
  | some s =>
  match scan2 s with
  | none => none
  | some (h, s) =>
  match expectC ':' s with
  | none => none
  | some s =>
  match scan2 s with
  | none => none
  | some (mi, s) =>
  match expectC ':' s with
  | none => none
  | some s =>
  match scan2 s with
  | none => none
  | some (se, s) =>
  match scanFrac s with
  | none => none
  | some (nano, s) =>
  match scanOffset s with
  | none => none
  | some (off, s) =>
  if s = [] ∧ 1 ≤ mo ∧ mo ≤ 12 ∧ 1 ≤ d ∧ d ≤ daysInMonth y mo
      ∧ h ≤ 23 ∧ mi ≤ 59 ∧ se ≤ 60 then
    let t : Timestamp :=
      if se = 60 then ⟨y, mo, d, h, mi, 59, nano + 1000000000⟩
      else ⟨y, mo, d, h, mi, se, nano⟩
    some (applyOffset t off)
  else none

/-- Split a character list at every occurrence of a separator character
(Rust `str::split`): `n` separators yield `n + 1` pieces. -/
def splitOnChar (c : Char) : Str → List Str
  | [] => [[]]
  | x :: r =>
    if x = c then [] :: splitOnChar c r
    else
      match splitOnChar c r with
      | s :: ss => (x :: s) :: ss
      | [] => [[x]]

/-- Is the character whitespace for Rust `str::trim` (the inputs at hand only
ever involve ASCII whitespace)? -/
def isWs (c : Char) : Bool := c = ' ' || c = '\t' || c = '\n' || c = '\r'

/-- Rust `str::trim`: drop whitespace from both ends. -/
def trimStr (l : Str) : Str :=
  ((l.dropWhile isWs).reverse.dropWhile isWs).reverse

/-- A line that `read_events` skips: blank after trimming. -/
def isBlank (l : Str) : Bool := trimStr l |>.isEmpty

/-- The kind token of a clock-in event. -/
def clockInTok : Str := "clock-in".toList

/-- The kind token of a clock-out event. -/
def clockOutTok : Str := "clock-out".toList

/-- `event_to_str` in `data.rs` (lines 138-146): `<kind-token>,<RFC 3339>`. -/
def eventToStr (e : Event) : Str :=
  (match e.kind with
   | .ClockIn => clockInTok
   | .ClockOut => clockOutTok) ++ ',' :: toRfc3339 e.dt

/-- `parse_event` in `data.rs` (lines 113-136): split on commas, trim each
column, require exactly two columns, a known kind token and a parsable
RFC 3339 timestamp. The error strings mirror the source's messages. -/
def parseEvent (line : Str) : Except Str Event :=
  match (splitOnChar ',' line).map trimStr with
  | [c0, c1] =>
    match (if c0 = clockInTok then some EventKind.ClockIn
           else if c0 = clockOutTok then some EventKind.ClockOut
           else none) with
    | none => .error ("Unknown event kind ".toList ++ c0)
    | some kind =>
      match parseRfc3339 c1 with
      | none => .error ("Could not parse ".toList ++ c1 ++ " as datetime".toList)
      | some dt => .ok ⟨kind, dt⟩
  | _ => .error ("Misformatted line: ".toList ++ line)

/-- Read events from a list of persisted lines: skip blank lines, parse the
rest, fail on the first malformed line (the `collect` over `Result` in
`read_events`, `data.rs` lines 106-110). -/
def readEventLines (ls : List Str) : Except Str (List Event) :=
  (ls.filter (fun l => !isBlank l)).mapM parseEvent

/-- `read_events` on the content of an existing partition file: Rust
`str::lines` splits on newlines (a possible final empty piece is blank and
is filtered out anyway). -/
def readEventsContent (content : Str) : Except Str (List Event) :=
  readEventLines (splitOnChar '\n' content)

/-- Pair each element with its index. -/
def withIdx (evs : List Event) : List (Nat × Event) :=
  (List.range evs.length).zip evs

/-- `delete_event` in `data.rs` (lines 148-169), on the partition's file
content: read all events, drop the one whose index equals `id` (the index is
cast `as u32`, hence the modulus), then write the remaining events back.
The write joins the event strings with NO separator: a plain
`collect::<String>()`, unlike the `join("\n")` used by `create_event`. -/
def deleteEventContent (content : Str) (id : Nat) : Except Str Str :=
  match readEventsContent content with
  | .error e => .error e
  | .ok evs =>
    .ok (((withIdx evs).filter (fun p => !(p.1 % 4294967296 == id))).map
      (fun p => eventToStr p.2)).flatten

/-- `create_event`'s serialization of a full partition (`data.rs` lines
78-82): event strings joined with newlines. -/
def serializeEvents (evs : List Event) : Str :=
  match evs.map eventToStr with
  | [] => []
  | l :: ls => l ++ (ls.map (fun x => '\n' :: x)).flatten

/-- Well-formed timestamp: what a `chrono::DateTime<Utc>` within the
persisted format's universe satisfies — a four-digit year, valid civil
fields, no leap second. -/
def Timestamp.wf (t : Timestamp) : Prop :=
  0 ≤ t.year ∧ t.year < 10000 ∧ 1 ≤ t.month ∧ t.month ≤ 12 ∧
    1 ≤ t.day ∧ t.day ≤ daysInMonth t.year t.month ∧
    t.hour ≤ 23 ∧ t.minute ≤ 59 ∧ t.second ≤ 59 ∧ t.nano < 1000000000

instance (t : Timestamp) : Decidable t.wf := by
  unfold Timestamp.wf
  infer_instance

/- ----------------------------------------------------------------
   Specification-side definitions (from the spec's words), used to
   compare the engine against the specified pairing discipline.
   ---------------------------------------------------------------- -/

/-- Pairing discipline of the spec's scan table, carrying an optional pending
clock-in instant: the sum of clock-out minus clock-in over the
ClockIn-to-ClockOut pairs formed left to right; orphaned events contribute
nothing. -/
def pendingPairsSum : Option Int → List Event → Int
  | _, [] => 0
  | none, e :: r =>
    match e.kind with
    | .ClockIn => pendingPairsSum (some e.dt.instant) r
    | .ClockOut => pendingPairsSum none r
  | some t, e :: r =>
    match e.kind with
    | .ClockIn => pendingPairsSum (some e.dt.instant) r
    | .ClockOut => (e.dt.instant - t) + pendingPairsSum none r

/-- Sum of the durations of the completed ClockIn-to-ClockOut pairs of a
sequence, in nanoseconds. -/
def completedPairsSum (evs : List Event) : Int := pendingPairsSum none evs

/-- A sequence of well-formed ClockIn/ClockOut pairs with no gaps, as in the
spec's testable property for the engine's happy path. -/
inductive WellPaired : List Event → Prop
  | nil : WellPaired []
  | pair (t1 t2 : Timestamp) (rest : List Event) : WellPaired rest →
      WellPaired (⟨.ClockIn, t1⟩ :: ⟨.ClockOut, t2⟩ :: rest)

/-- Exact sum of clock-out minus clock-in over a gap-free pair sequence, in
nanoseconds. -/
def pairsSum : List Event → Int
  | e1 :: e2 :: rest => (e2.dt.instant - e1.dt.instant) + pairsSum rest
  | _ => 0

/-- Events are in ascending timestamp order. -/
def TimeOrdered (evs : List Event) : Prop :=
  List.Chain' (fun a b => a.dt.instant ≤ b.dt.instant) evs

/-- Executable check of ascending timestamp order. -/
def timeOrderedB : List Event → Bool
  | a :: b :: r => (decide (a.dt.instant ≤ b.dt.instant)) && timeOrderedB (b :: r)
  | _ => true

theorem timeOrderedB_iff (evs : List Event) : timeOrderedB evs = true ↔ TimeOrdered evs := by
  induction evs with
  | nil => simp [timeOrderedB, TimeOrdered]
  | cons a r ih =>
    cases r with
    | nil => simp [timeOrderedB, TimeOrdered]
    | cons b s =>
      have hc : TimeOrdered (a :: b :: s)
          ↔ (a.dt.instant ≤ b.dt.instant ∧ TimeOrdered (b :: s)) := List.chain'_cons
      rw [hc, ← ih, timeOrderedB]
      simp

instance (evs : List Event) : Decidable (TimeOrdered evs) :=
  decidable_of_iff _ (timeOrderedB_iff evs)

/- ----------------------------------------------------------------
   Engine lemmas.
   ---------------------------------------------------------------- -/

theorem wtStep_clockIn_dur (st : WtState) (e : Event) (h : e.kind = .ClockIn) :
    (wtStep st e).dur = st.dur := by
  rcases st with ⟨d, c, p⟩
  cases p <;> simp [wtStep, h]

theorem wtStep_complete_false (st : WtState) (e : Event) (h : st.complete = false) :
    (wtStep st e).complete = false := by
  rcases st with ⟨d, c, p⟩
  cases p <;> cases hk : e.kind <;> simp_all [wtStep]

theorem foldl_wtStep_complete_false (evs : List Event) :
    ∀ st : WtState, st.complete = false → (evs.foldl wtStep st).complete = false := by
  induction evs with
  | nil => intro st h; simpa using h
  | cons e r ih =>
    intro st h
    exact ih (wtStep st e) (wtStep_complete_false st e h)

theorem foldl_wtStep_dur (evs : List Event) :
    ∀ (d : Int) (c : Bool) (p : Option Event),
      (evs.foldl wtStep ⟨d, c, p⟩).dur
        = d + pendingPairsSum (p.map (fun e => e.dt.instant)) evs := by
  induction evs with
  | nil => intro d c p; simp [pendingPairsSum]
  | cons e r ih =>
    intro d c p
    cases p with
    | none =>
      cases hk : e.kind <;>
        simp [List.foldl_cons, wtStep, hk, pendingPairsSum, ih]
    | some q =>
      cases hk : e.kind
      case ClockIn => simp [List.foldl_cons, wtStep, hk, pendingPairsSum, ih]
      case ClockOut =>
        simp [List.foldl_cons, wtStep, hk, pendingPairsSum, ih]
        ring

theorem wtFold_dur_eq_completedPairsSum (evs : List Event) :
    (wtFold evs).dur = completedPairsSum evs := by
  simpa using foldl_wtStep_dur evs 0 true none

theorem foldl_wtStep_dur_nonneg (evs : List Event) :
    ∀ st : WtState, 0 ≤ st.dur →
      List.Chain' (fun a b => a.dt.instant ≤ b.dt.instant) (st.pending.toList ++ evs) →
      0 ≤ (evs.foldl wtStep st).dur := by
  induction evs with
  | nil => intro st h _; simpa using h
  | cons e r ih =>
    intro st h hc
    rcases st with ⟨d, c, p⟩
    have hd : 0 ≤ d := h
    rw [List.foldl_cons]
    cases p with
    | none =>
      have hcr : List.Chain' (fun a b => a.dt.instant ≤ b.dt.instant) (e :: r) := by
        simpa using hc
      cases hk : e.kind
      case ClockIn =>
        have hstep : wtStep ⟨d, c, none⟩ e = ⟨d, c, some e⟩ := by simp [wtStep, hk]
        rw [hstep]
        exact ih ⟨d, c, some e⟩ hd (by simpa using hcr)
      case ClockOut =>
        have hstep : wtStep ⟨d, c, none⟩ e = ⟨d, false, none⟩ := by simp [wtStep, hk]
        rw [hstep]
        refine ih ⟨d, false, none⟩ hd ?_
        simpa using hcr.tail
    | some q =>
      have hcq : List.Chain' (fun a b => a.dt.instant ≤ b.dt.instant) (q :: e :: r) := by
        simpa using hc
      cases hk : e.kind
      case ClockIn =>
        have hstep : wtStep ⟨d, c, some q⟩ e = ⟨d, false, some e⟩ := by simp [wtStep, hk]
        rw [hstep]
        refine ih ⟨d, false, some e⟩ hd ?_
        simpa using hcq.tail
      case ClockOut =>
        have hqe : q.dt.instant ≤ e.dt.instant :=
          ((List.chain'_cons (x := q) (y := e) (l := r)).mp hcq).1
        have hstep : wtStep ⟨d, c, some q⟩ e
            = ⟨d + (e.dt.instant - q.dt.instant), c, none⟩ := by simp [wtStep, hk]
        rw [hstep]
        refine ih ⟨d + (e.dt.instant - q.dt.instant), c, none⟩ (by simp; omega) ?_
        simpa using hcq.tail.tail

theorem wtFold_dur_nonneg (evs : List Event) (h : TimeOrdered evs) :
    0 ≤ (wtFold evs).dur :=
  foldl_wtStep_dur_nonneg evs ⟨0, true, none⟩ le_rfl (by simpa [TimeOrdered] using h)

theorem wtFold_wellPaired (evs : List Event) (hw : WellPaired evs) :
    ∀ (d : Int) (c : Bool),
      evs.foldl wtStep ⟨d, c, none⟩ = ⟨d + pairsSum evs, c, none⟩ := by
  induction hw with
  | nil => intro d c; simp [pairsSum]
  | pair t1 t2 rest _ ih =>
    intro d c
    have h2 : (⟨.ClockIn, t1⟩ :: ⟨.ClockOut, t2⟩ :: rest).foldl wtStep ⟨d, c, none⟩
        = rest.foldl wtStep ⟨d + (t2.instant - t1.instant), c, none⟩ := by
      simp [List.foldl_cons, wtStep]
    rw [h2, ih]
    simp [pairsSum]
    ring

/-- When both `u32` conversions are in range, `working_time` yields the
truncated hour/minute decomposition of the accumulated duration. -/
theorem workingTime_eq_of_bounds (evs : List Event)
    (h0 : 0 ≤ (wtFold evs).dur)
    (hb : (wtFold evs).dur < 4294967296 * 3600 * 1000000000) :
    workingTime evs =
      some ⟨((Int.tdiv (Int.tdiv (wtFold evs).dur 1000000000) 3600)).toNat,
            ((Int.tmod (Int.tdiv (Int.tdiv (wtFold evs).dur 1000000000) 60) 60)).toNat,
            (wtFold evs).complete⟩ := by
  have e9 : Int.tdiv (wtFold evs).dur 1000000000 = (wtFold evs).dur / 1000000000 :=
    Int.tdiv_eq_ediv h0 (by norm_num)
  have hs0 : 0 ≤ (wtFold evs).dur / 1000000000 := Int.ediv_nonneg h0 (by norm_num)
  have e3600 : Int.tdiv ((wtFold evs).dur / 1000000000) 3600
      = (wtFold evs).dur / 1000000000 / 3600 := Int.tdiv_eq_ediv hs0 (by norm_num)
  have e60 : Int.tdiv ((wtFold evs).dur / 1000000000) 60
      = (wtFold evs).dur / 1000000000 / 60 := Int.tdiv_eq_ediv hs0 (by norm_num)
  have hs60 : 0 ≤ (wtFold evs).dur / 1000000000 / 60 := Int.ediv_nonneg hs0 (by norm_num)
  have em : Int.tmod ((wtFold evs).dur / 1000000000 / 60) 60
      = ((wtFold evs).dur / 1000000000 / 60) % 60 := Int.tmod_eq_emod hs60 (by norm_num)
  have hhb : 0 ≤ (wtFold evs).dur / 1000000000 / 3600
      ∧ (wtFold evs).dur / 1000000000 / 3600 < 4294967296 := by omega
  have hmb : 0 ≤ ((wtFold evs).dur / 1000000000 / 60) % 60
      ∧ ((wtFold evs).dur / 1000000000 / 60) % 60 < 4294967296 := by omega
  unfold workingTime toU32
  rw [e9, e3600, e60, em, if_pos hhb, if_pos hmb]

theorem toU32_eq_some {x : Int} {y : Nat} (h : toU32 x = some y) :
    y = x.toNat ∧ 0 ≤ x ∧ x < 4294967296 := by
  unfold toU32 at h
  split at h
  · exact ⟨(Option.some.injEq _ _).mp h.symm ▸ rfl, by assumption⟩
  · exact absurd h (by simp)

theorem workingTime_inv {evs : List Event} {wt : WorkingTime}
    (h : workingTime evs = some wt) :
    wt.hours = (Int.tdiv (Int.tdiv (wtFold evs).dur 1000000000) 3600).toNat ∧
    wt.minutes = (Int.tmod (Int.tdiv (Int.tdiv (wtFold evs).dur 1000000000) 60) 60).toNat ∧
    wt.complete = (wtFold evs).complete := by
  unfold workingTime at h
  cases h1 : toU32 (Int.tdiv (Int.tdiv (wtFold evs).dur 1000000000) 3600) with
  | none => rw [h1] at h; exact absurd h (by simp)
  | some hh =>
    cases h2 : toU32 (Int.tmod (Int.tdiv (Int.tdiv (wtFold evs).dur 1000000000) 60) 60) with
    | none => rw [h1, h2] at h; exact absurd h (by simp)
    | some mm =>
      rw [h1, h2] at h
      have := (Option.some.injEq _ _).mp h
      subst this
      exact ⟨(toU32_eq_some h1).1, (toU32_eq_some h2).1, rfl⟩

theorem mapM_option_forall₂ {α β : Type} (f : α → Option β) :
    ∀ (l : List α) (out : List β), l.mapM f = some out →
      List.Forall₂ (fun a b => f a = some b) l out := by
  intro l
  induction l with
  | nil =>
    intro out h
    simp only [List.mapM_nil, pure, Option.some.injEq] at h
    subst h
    exact List.Forall₂.nil
  | cons a r ih =>
    intro out h
    rw [List.mapM_cons] at h
    cases hfa : f a with
    | none => rw [hfa] at h; exact absurd h (by simp)
    | some b =>
      cases hr : r.mapM f with
      | none => rw [hfa, hr] at h; exact absurd h (by simp)
      | some bs =>
        rw [hfa, hr] at h
        simp only [Option.bind_eq_bind, Option.some_bind, Option.pure_def,
          Option.some.injEq] at h
        subst h
        exact List.Forall₂.cons hfa (ih bs hr)

/- ----------------------------------------------------------------
   Claim theorems: the duration engine (C5, C6, C7).
   ---------------------------------------------------------------- -/

/-- C5: the engine accumulates duration only on a ClockIn followed, in
pairing order, by a ClockOut; an orphaned ClockOut (no pending clock-in)
contributes zero duration and flips completeness to false; on two ClockIns
without intervening ClockOut completeness flips and only the later ClockIn
stays eligible for pairing; any orphaned event anywhere in the sequence
makes the final completeness false; the accumulated duration equals the sum
over the completed pairs. -/
theorem workingTime_pairing_discipline :
    (∀ st e, e.kind = .ClockIn → (wtStep st e).dur = st.dur) ∧
    (∀ st e, st.pending = none → e.kind = .ClockOut →
      (wtStep st e).dur = st.dur ∧ (wtStep st e).complete = false) ∧
    (∀ st e p, st.pending = some p → e.kind = .ClockIn →
      (wtStep st e).complete = false ∧ (wtStep st e).pending = some e) ∧
    (∀ st e, (wtStep st e).dur ≠ st.dur →
      ∃ p, st.pending = some p ∧ e.kind = .ClockOut ∧
        (wtStep st e).dur = st.dur + (e.dt.instant - p.dt.instant)) ∧
    (∀ pre e post,
      ((wtFold pre).pending = none ∧ e.kind = .ClockOut) ∨
        ((wtFold pre).pending ≠ none ∧ e.kind = .ClockIn) →
      (wtFold (pre ++ e :: post)).complete = false) ∧
    (∀ evs, (wtFold evs).dur = completedPairsSum evs) := by
  refine ⟨?_, ?_, ?_, ?_, ?_, wtFold_dur_eq_completedPairsSum⟩
  · exact wtStep_clockIn_dur
  · intro st e hp hk
    rcases st with ⟨d, c, p⟩
    cases hp
    simp [wtStep, hk]
  · intro st e p hp hk
    rcases st with ⟨d, c, q⟩
    cases hp
    simp [wtStep, hk]
  · intro st e hne
    rcases st with ⟨d, c, p⟩
    cases p with
    | none => cases hk : e.kind <;> simp [wtStep, hk] at hne ⊢
    | some q => cases hk : e.kind <;> simp [wtStep, hk] at hne ⊢
  · intro pre e post hcase
    have hsplit : wtFold (pre ++ e :: post)
        = post.foldl wtStep (wtStep (wtFold pre) e) := by
      unfold wtFold
      rw [List.foldl_append, List.foldl_cons]
    rw [hsplit]
    apply foldl_wtStep_complete_false
    rcases hcase with ⟨hp, hk⟩ | ⟨hp, hk⟩
    · rcases hst : wtFold pre with ⟨d, c, p⟩
      rw [hst] at hp
      simp only at hp
      subst hp
      simp [wtStep, hk]
    · rcases hst : wtFold pre with ⟨d, c, p⟩
      rw [hst] at hp
      simp only at hp
      cases p with
      | none => exact absurd rfl hp
      | some q => simp [wtStep, hk]

/-- Closed instance of the pairing-discipline theorem: a lone clock-out is
incomplete with zero duration, a double clock-in is incomplete, and the
accumulated duration of a mixed sequence equals its completed-pairs sum. -/
theorem workingTime_pairing_discipline_witness :
    (wtFold ([] ++ ⟨.ClockOut, ⟨2022, 3, 1, 9, 0, 0, 0⟩⟩ :: [])).complete = false ∧
    (wtFold ([⟨.ClockIn, ⟨2022, 3, 1, 8, 0, 0, 0⟩⟩]
        ++ ⟨.ClockIn, ⟨2022, 3, 1, 9, 0, 0, 0⟩⟩ :: [⟨.ClockOut, ⟨2022, 3, 1, 10, 0, 0, 0⟩⟩])).complete = false ∧
    (wtFold [⟨.ClockOut, ⟨2022, 3, 1, 7, 0, 0, 0⟩⟩, ⟨.ClockIn, ⟨2022, 3, 1, 8, 0, 0, 0⟩⟩,
        ⟨.ClockOut, ⟨2022, 3, 1, 9, 30, 0, 0⟩⟩]).dur
      = completedPairsSum [⟨.ClockOut, ⟨2022, 3, 1, 7, 0, 0, 0⟩⟩, ⟨.ClockIn, ⟨2022, 3, 1, 8, 0, 0, 0⟩⟩,
        ⟨.ClockOut, ⟨2022, 3, 1, 9, 30, 0, 0⟩⟩] := by
  refine ⟨?_, ?_, ?_⟩
  · exact workingTime_pairing_discipline.2.2.2.2.1 [] _ [] (Or.inl ⟨by decide, rfl⟩)
  · exact workingTime_pairing_discipline.2.2.2.2.1 _ _ _ (Or.inr ⟨by decide, rfl⟩)
  · exact workingTime_pairing_discipline.2.2.2.2.2 _

/-- C6 (amended with the duration bound the u32 conversion forces): on a
time-ordered gap-free sequence of ClockIn/ClockOut pairs whose total stays
below 2^32 hours, the engine reports complete and exactly the truncated
sum of clock-out minus clock-in over the pairs: hours is total minutes
divided by 60, minutes is total minutes modulo 60. -/
theorem workingTime_wellPaired_exact (evs : List Event) (hw : WellPaired evs)
    (hs : TimeOrdered evs)
    (hb : pairsSum evs < 4294967296 * 3600 * 1000000000) :
    workingTime evs =
      some ⟨(Int.tdiv (Int.tdiv (Int.tdiv (pairsSum evs) 1000000000) 60) 60).toNat,
            (Int.tmod (Int.tdiv (Int.tdiv (pairsSum evs) 1000000000) 60) 60).toNat,
            true⟩ := by
  have hfold : wtFold evs = ⟨pairsSum evs, true, none⟩ := by
    simpa using wtFold_wellPaired evs hw 0 true
  have h0 : 0 ≤ (wtFold evs).dur := wtFold_dur_nonneg evs hs
  have h0s : 0 ≤ pairsSum evs := by rw [hfold] at h0; exact h0
  have hmain := workingTime_eq_of_bounds evs (by rw [hfold]; exact h0s) (by rw [hfold]; exact hb)
  rw [hfold] at hmain
  have e9 : Int.tdiv (pairsSum evs) 1000000000 = pairsSum evs / 1000000000 :=
    Int.tdiv_eq_ediv h0s (by norm_num)
  have hs0 : 0 ≤ pairsSum evs / 1000000000 := Int.ediv_nonneg h0s (by norm_num)
  have e3600 : Int.tdiv (pairsSum evs / 1000000000) 3600
      = pairsSum evs / 1000000000 / 3600 := Int.tdiv_eq_ediv hs0 (by norm_num)
  have e60 : Int.tdiv (pairsSum evs / 1000000000) 60
      = pairsSum evs / 1000000000 / 60 := Int.tdiv_eq_ediv hs0 (by norm_num)
  have hs60 : 0 ≤ pairsSum evs / 1000000000 / 60 := Int.ediv_nonneg hs0 (by norm_num)
  have e6060 : Int.tdiv (pairsSum evs / 1000000000 / 60) 60
      = pairsSum evs / 1000000000 / 60 / 60 := Int.tdiv_eq_ediv hs60 (by norm_num)
  have hdd : pairsSum evs / 1000000000 / 60 / 60 = pairsSum evs / 1000000000 / 3600 := by
    omega
  simp only [e9, e3600, e60, e6060, hdd] at hmain ⊢
  exact hmain

/-- Closed instance of the gap-free exact-sum theorem: two pairs on two days
(08:00-16:15 and 09:00-17:00) give 16:15 hours, complete. -/
theorem workingTime_wellPaired_exact_witness :
    workingTime [⟨.ClockIn, ⟨2022, 3, 7, 8, 0, 0, 0⟩⟩, ⟨.ClockOut, ⟨2022, 3, 7, 16, 15, 0, 0⟩⟩,
        ⟨.ClockIn, ⟨2022, 3, 8, 9, 0, 0, 0⟩⟩, ⟨.ClockOut, ⟨2022, 3, 8, 17, 0, 0, 0⟩⟩]
      = some ⟨16, 15, true⟩ := by
  have h := workingTime_wellPaired_exact
    [⟨.ClockIn, ⟨2022, 3, 7, 8, 0, 0, 0⟩⟩, ⟨.ClockOut, ⟨2022, 3, 7, 16, 15, 0, 0⟩⟩,
      ⟨.ClockIn, ⟨2022, 3, 8, 9, 0, 0, 0⟩⟩, ⟨.ClockOut, ⟨2022, 3, 8, 17, 0, 0, 0⟩⟩]
    (WellPaired.pair _ _ _ (WellPaired.pair _ _ _ WellPaired.nil))
    (by decide) (by decide)
  rw [h]
  decide

/-- Counterexample to C6 as stated: a single well-formed, time-ordered pair
spanning about 524285 years (within chrono's representable range)
accumulates at least 2^32 hours, the `u32` conversion of the hours fails,
and the engine panics instead of returning the stated result. -/
theorem workingTime_wellPaired_overflow :
    WellPaired [⟨.ClockIn, ⟨-262143, 1, 1, 1, 0, 0, 0⟩⟩, ⟨.ClockOut, ⟨262142, 1, 1, 1, 0, 0, 0⟩⟩] ∧
    TimeOrdered [⟨.ClockIn, ⟨-262143, 1, 1, 1, 0, 0, 0⟩⟩, ⟨.ClockOut, ⟨262142, 1, 1, 1, 0, 0, 0⟩⟩] ∧
    workingTime [⟨.ClockIn, ⟨-262143, 1, 1, 1, 0, 0, 0⟩⟩, ⟨.ClockOut, ⟨262142, 1, 1, 1, 0, 0, 0⟩⟩]
      = none := by
  exact ⟨WellPaired.pair _ _ _ WellPaired.nil, by decide, by decide⟩

/-- C7 (amended with the duration bound the u32 conversion forces): on any
time-ordered sequence whose accumulated duration stays below 2^32 hours,
the engine totals without failing: hours is a non-negative integer below
2^32 and minutes lies in 0..59. -/
theorem workingTime_total_on_ordered (evs : List Event) (hs : TimeOrdered evs)
    (hb : (wtFold evs).dur < 4294967296 * 3600 * 1000000000) :
    ∃ wt, workingTime evs = some wt ∧ wt.minutes ≤ 59 ∧ wt.hours < 4294967296 := by
  have h0 := wtFold_dur_nonneg evs hs
  refine ⟨_, workingTime_eq_of_bounds evs h0 hb, ?_, ?_⟩
  · have e9 : Int.tdiv (wtFold evs).dur 1000000000 = (wtFold evs).dur / 1000000000 :=
      Int.tdiv_eq_ediv h0 (by norm_num)
    have hs0 : 0 ≤ (wtFold evs).dur / 1000000000 := Int.ediv_nonneg h0 (by norm_num)
    have e60 : Int.tdiv ((wtFold evs).dur / 1000000000) 60
        = (wtFold evs).dur / 1000000000 / 60 := Int.tdiv_eq_ediv hs0 (by norm_num)
    have hs60 : 0 ≤ (wtFold evs).dur / 1000000000 / 60 := Int.ediv_nonneg hs0 (by norm_num)
    have em : Int.tmod ((wtFold evs).dur / 1000000000 / 60) 60
        = ((wtFold evs).dur / 1000000000 / 60) % 60 := Int.tmod_eq_emod hs60 (by norm_num)
    simp only [e9, e60, em]
    omega
  · have e9 : Int.tdiv (wtFold evs).dur 1000000000 = (wtFold evs).dur / 1000000000 :=
      Int.tdiv_eq_ediv h0 (by norm_num)
    have hs0 : 0 ≤ (wtFold evs).dur / 1000000000 := Int.ediv_nonneg h0 (by norm_num)
    have e3600 : Int.tdiv ((wtFold evs).dur / 1000000000) 3600
        = (wtFold evs).dur / 1000000000 / 3600 := Int.tdiv_eq_ediv hs0 (by norm_num)
    simp only [e9, e3600]
    omega

/-- Closed instance of the totality theorem on a time-ordered sequence with
an orphaned event: the engine still returns a result, minutes in range. -/
theorem workingTime_total_on_ordered_witness :
    ∃ wt, workingTime [⟨.ClockOut, ⟨2021, 6, 1, 7, 45, 0, 0⟩⟩,
        ⟨.ClockIn, ⟨2021, 6, 1, 8, 5, 0, 0⟩⟩, ⟨.ClockOut, ⟨2021, 6, 1, 12, 35, 0, 0⟩⟩]
      = some wt ∧ wt.minutes ≤ 59 ∧ wt.hours < 4294967296 :=
  workingTime_total_on_ordered _ (by decide) (by decide)

/-- Counterexample to C7 as stated: a time-ordered two-event sequence
spanning about 524285 years (within chrono's representable range) makes
the `u32` conversion of the hours fail: the engine panics rather than
returning a result. -/
theorem workingTime_overflow :
    TimeOrdered [⟨.ClockIn, ⟨-262143, 1, 1, 0, 0, 0, 0⟩⟩, ⟨.ClockOut, ⟨262142, 1, 1, 0, 0, 0, 0⟩⟩] ∧
    workingTime [⟨.ClockIn, ⟨-262143, 1, 1, 0, 0, 0, 0⟩⟩, ⟨.ClockOut, ⟨262142, 1, 1, 0, 0, 0, 0⟩⟩]
      = none := by
  exact ⟨by decide, by decide⟩

/- ----------------------------------------------------------------
   Claim theorems: report aggregation (C3, C10, C2).
   ---------------------------------------------------------------- -/

/-- C3 (amended): every per-day row whose engine result has complete = false
is rendered with the `?` placeholder and the incompleteness comment instead
of an HH:MM number, and the grand total after the rows is the truncated
hour/minute decomposition of the sum over the completed ClockIn/ClockOut
pairs of the whole scope. (A day whose only event is a trailing lone
clock-in is reported complete and rendered 00:00, not with the placeholder:
a trailing unmatched clock-in does not flip the engine's flag.) -/
theorem reportDays_incomplete_rows_and_total (evs : List Event) (rep : DaysReport)
    (h : reportDays evs = some rep) :
    List.Forall₂
      (fun (kg : Nat × List Event) (row : DayRow) =>
        ∃ wt, workingTime kg.2 = some wt ∧ row = mkDayRow kg.1 wt ∧
          (wt.complete = false →
            row.recordedTime = "?" ∧ row.comment = "Incomplete records, please update"))
      (eventsPerDay evs) rep.rows ∧
    rep.totalHours = (Int.tdiv (Int.tdiv (completedPairsSum evs) 1000000000) 3600).toNat ∧
    rep.totalMinutes
      = (Int.tmod (Int.tdiv (Int.tdiv (completedPairsSum evs) 1000000000) 60) 60).toNat := by
  unfold reportDays at h
  cases hm : (eventsPerDay evs).mapM (fun kg => (workingTime kg.2).map (mkDayRow kg.1)) with
  | none => rw [hm] at h; exact absurd h (by simp)
  | some rows =>
    rw [hm] at h
    cases hw : workingTime evs with
    | none => rw [hw] at h; exact absurd h (by simp)
    | some total =>
      rw [hw] at h
      simp only [Option.some.injEq] at h
      subst h
      have hinv := workingTime_inv hw
      have hdur := wtFold_dur_eq_completedPairsSum evs
      refine ⟨?_, ?_, ?_⟩
      · have hf := mapM_option_forall₂ _ _ _ hm
        refine hf.imp ?_
        intro kg row hrow
        obtain ⟨wt, hwt, hmk⟩ := Option.map_eq_some'.mp hrow
        refine ⟨wt, hwt, hmk.symm, ?_⟩
        intro hcf
        rw [← hmk]
        simp [mkDayRow, hcf]
      · rw [← hdur]
        exact hinv.1
      · rw [← hdur]
        exact hinv.2.1

/-- Counterexample to C3 as stated: a February scope whose day 11 holds only
a lone clock-in renders that row as a completed `00:00`, not as the claimed
`??:??`/`?` placeholder, because the engine reports such a day complete. -/
theorem reportDays_lone_clockin_row_not_placeholder :
    workingTime [⟨.ClockIn, ⟨2022, 2, 11, 9, 0, 0, 0⟩⟩] = some ⟨0, 0, true⟩ ∧
    reportDays [⟨.ClockIn, ⟨2022, 2, 10, 8, 0, 0, 0⟩⟩, ⟨.ClockOut, ⟨2022, 2, 10, 16, 0, 0, 0⟩⟩,
        ⟨.ClockIn, ⟨2022, 2, 11, 9, 0, 0, 0⟩⟩]
      = some ⟨[⟨10, "08:00", ""⟩, ⟨11, "00:00", ""⟩], 8, 0⟩ := by
  exact ⟨by decide, by decide⟩

/-- Closed instance of the rows-and-total theorem, on a February scope with a
completed day 10 and a lone clock-out on day 11: the incomplete day's row
is the placeholder row and the grand total counts only the completed pair. -/
theorem reportDays_incomplete_rows_and_total_witness :
    reportDays [⟨.ClockIn, ⟨2022, 2, 10, 8, 0, 0, 0⟩⟩, ⟨.ClockOut, ⟨2022, 2, 10, 16, 0, 0, 0⟩⟩,
        ⟨.ClockOut, ⟨2022, 2, 11, 9, 0, 0, 0⟩⟩]
      = some ⟨[⟨10, "08:00", ""⟩, ⟨11, "?", "Incomplete records, please update"⟩], 8, 0⟩ ∧
    List.Forall₂
      (fun (kg : Nat × List Event) (row : DayRow) =>
        ∃ wt, workingTime kg.2 = some wt ∧ row = mkDayRow kg.1 wt ∧
          (wt.complete = false →
            row.recordedTime = "?" ∧ row.comment = "Incomplete records, please update"))
      (eventsPerDay [⟨.ClockIn, ⟨2022, 2, 10, 8, 0, 0, 0⟩⟩, ⟨.ClockOut, ⟨2022, 2, 10, 16, 0, 0, 0⟩⟩,
        ⟨.ClockOut, ⟨2022, 2, 11, 9, 0, 0, 0⟩⟩])
      [⟨10, "08:00", ""⟩, ⟨11, "?", "Incomplete records, please update"⟩] := by
  refine ⟨by decide, ?_⟩
  have h := reportDays_incomplete_rows_and_total
    [⟨.ClockIn, ⟨2022, 2, 10, 8, 0, 0, 0⟩⟩, ⟨.ClockOut, ⟨2022, 2, 10, 16, 0, 0, 0⟩⟩,
      ⟨.ClockOut, ⟨2022, 2, 11, 9, 0, 0, 0⟩⟩]
    ⟨[⟨10, "08:00", ""⟩, ⟨11, "?", "Incomplete records, please update"⟩], 8, 0⟩
    (by decide)
  exact h.1

/-- C10: the grand-total line after the per-day rows is always the numeric
HH:MM of the whole-scope engine result: the completeness flag of that
result is discarded (`complete: _` in the source) and no placeholder or
annotation is attached, whatever the flag was. -/
theorem reportDays_total_always_numeric (evs : List Event) (rep : DaysReport)
    (wt : WorkingTime) (h : reportDays evs = some rep) (hw : workingTime evs = some wt) :
    rep.totalHours = wt.hours ∧ rep.totalMinutes = wt.minutes ∧
    totalLine rep
      = "Total working time: " ++ pad2Str wt.hours ++ ":" ++ pad2Str wt.minutes ++ " hours" := by
  unfold reportDays at h
  cases hm : (eventsPerDay evs).mapM (fun kg => (workingTime kg.2).map (mkDayRow kg.1)) with
  | none => rw [hm] at h; exact absurd h (by simp)
  | some rows =>
    rw [hm, hw] at h
    simp only [Option.some.injEq] at h
    subst h
    exact ⟨rfl, rfl, rfl⟩

/-- Closed instance of the numeric-total theorem on a scope whose whole-scope
engine result is incomplete (a lone clock-out): the total line is still the
plain numeric `00:00` rendering. -/
theorem reportDays_total_always_numeric_witness :
    workingTime [⟨.ClockOut, ⟨2023, 3, 15, 9, 0, 0, 0⟩⟩] = some ⟨0, 0, false⟩ ∧
    reportDays [⟨.ClockOut, ⟨2023, 3, 15, 9, 0, 0, 0⟩⟩]
      = some ⟨[⟨15, "?", "Incomplete records, please update"⟩], 0, 0⟩ ∧
    totalLine ⟨[⟨15, "?", "Incomplete records, please update"⟩], 0, 0⟩
      = "Total working time: 00:00 hours" := by
  refine ⟨by decide, by decide, ?_⟩
  have h := reportDays_total_always_numeric [⟨.ClockOut, ⟨2023, 3, 15, 9, 0, 0, 0⟩⟩]
    ⟨[⟨15, "?", "Incomplete records, please update"⟩], 0, 0⟩ ⟨0, 0, false⟩
    (by decide) (by decide)
  rw [h.2.2]
  rfl

/-- Counterexample to C2 as stated: `report_days` keys its grouping map by
the bare day of month, so a Dec 30, 2019 event and a Jan 30, 2020 event —
distinct full calendar dates sharing the day number 30 — are merged into a
single row keyed 30. -/
theorem eventsPerDay_merges_distinct_dates :
    eventsPerDay [⟨.ClockIn, ⟨2019, 12, 30, 8, 0, 0, 0⟩⟩, ⟨.ClockOut, ⟨2020, 1, 30, 16, 0, 0, 0⟩⟩]
      = [(30, [⟨.ClockIn, ⟨2019, 12, 30, 8, 0, 0, 0⟩⟩, ⟨.ClockOut, ⟨2020, 1, 30, 16, 0, 0, 0⟩⟩])] ∧
    (⟨.ClockIn, ⟨2019, 12, 30, 8, 0, 0, 0⟩⟩ : Event).dt.year
      ≠ (⟨.ClockOut, ⟨2020, 1, 30, 16, 0, 0, 0⟩⟩ : Event).dt.year := by
  exact ⟨by decide, by decide⟩

/-- C2 (amended): the grouping key is the bare day-of-month, not the full
date; but whenever all supplied events sharing a day number come from the
same full calendar date — as holds for any set of dates spanning at most one
week or one calendar month, the scopes the reports supply — every group
contains the events of exactly one full date and no two distinct dates are
merged into one row. -/
theorem eventsPerDay_single_date_groups (evs : List Event)
    (h : ∀ e1 ∈ evs, ∀ e2 ∈ evs, e1.dt.day = e2.dt.day →
      e1.dt.year = e2.dt.year ∧ e1.dt.month = e2.dt.month) :
    ∀ kg ∈ eventsPerDay evs,
      (∀ e ∈ kg.2, e ∈ evs ∧ e.dt.day = kg.1) ∧
      (∀ e ∈ evs, e.dt.day = kg.1 → e ∈ kg.2) ∧
      (∀ e1 ∈ kg.2, ∀ e2 ∈ kg.2,
        e1.dt.year = e2.dt.year ∧ e1.dt.month = e2.dt.month ∧ e1.dt.day = e2.dt.day) := by
  intro kg hkg
  obtain ⟨k, hk, rfl⟩ := List.mem_map.mp hkg
  refine ⟨?_, ?_, ?_⟩
  · intro e he
    have hme := List.mem_filter.mp he
    exact ⟨hme.1, by simpa using hme.2⟩
  · intro e he hd
    exact List.mem_filter.mpr ⟨he, by simpa using hd⟩
  · intro e1 h1 e2 h2
    have m1 := List.mem_filter.mp h1
    have m2 := List.mem_filter.mp h2
    have d1 : e1.dt.day = k := by simpa using m1.2
    have d2 : e2.dt.day = k := by simpa using m2.2
    have hym := h e1 m1.1 e2 m2.1 (by rw [d1, d2])
    exact ⟨hym.1, hym.2, by rw [d1, d2]⟩

/-- Closed instance of the single-date-group theorem on a week spanning the
2019 to 2020 year boundary (work on Dec 30 and on Jan 2): the two events of
the group keyed 2 agree on the full date 2020-01-02, so that group holds a
single calendar date. -/
theorem eventsPerDay_single_date_groups_witness :
    (⟨.ClockIn, ⟨2020, 1, 2, 9, 0, 0, 0⟩⟩ : Event).dt.year
        = (⟨.ClockOut, ⟨2020, 1, 2, 17, 0, 0, 0⟩⟩ : Event).dt.year ∧
    (⟨.ClockIn, ⟨2020, 1, 2, 9, 0, 0, 0⟩⟩ : Event).dt.month
        = (⟨.ClockOut, ⟨2020, 1, 2, 17, 0, 0, 0⟩⟩ : Event).dt.month ∧
    (⟨.ClockIn, ⟨2020, 1, 2, 9, 0, 0, 0⟩⟩ : Event).dt.day
        = (⟨.ClockOut, ⟨2020, 1, 2, 17, 0, 0, 0⟩⟩ : Event).dt.day := by
  have h := eventsPerDay_single_date_groups
    [⟨.ClockIn, ⟨2019, 12, 30, 8, 0, 0, 0⟩⟩, ⟨.ClockOut, ⟨2019, 12, 30, 12, 0, 0, 0⟩⟩,
      ⟨.ClockIn, ⟨2020, 1, 2, 9, 0, 0, 0⟩⟩, ⟨.ClockOut, ⟨2020, 1, 2, 17, 0, 0, 0⟩⟩]
    (by decide)
    (2, [⟨.ClockIn, ⟨2020, 1, 2, 9, 0, 0, 0⟩⟩, ⟨.ClockOut, ⟨2020, 1, 2, 17, 0, 0, 0⟩⟩])
    (by decide)
  exact h.2.2 ⟨.ClockIn, ⟨2020, 1, 2, 9, 0, 0, 0⟩⟩ (by decide)
    ⟨.ClockOut, ⟨2020, 1, 2, 17, 0, 0, 0⟩⟩ (by decide)

/- ----------------------------------------------------------------
   Claim theorem: the weekly header's week number (C4).
   ---------------------------------------------------------------- -/

/-- C4 fails on the code: for Monday 2022-01-10 (the kind of date
`weekly_report` receives) the header computes calendar week 54, while the
ISO-8601 week number of that date is 2. The wrapping `u32` subtraction
`number_from_monday() - date.day()` underflows for every January date with
day greater than its weekday number, making the year-adjustment test
succeed and the week count run from the previous year's week-1 Monday. -/
theorem weeklyReport_week_number_not_iso :
    weekdayNumberFromMonday (Date.days ⟨2022, 1, 10⟩) = 1 ∧
    weeklyCalendarWeek ⟨2022, 1, 10⟩ = 54 ∧
    isoWeekNumber ⟨2022, 1, 10⟩ = 2 := by
  exact ⟨by decide, by decide, by decide⟩

/- ----------------------------------------------------------------
   Persistence-layer lemmas: digits, padding, scanning, splitting.
   ---------------------------------------------------------------- -/

theorem digitC_isDigit (d : Nat) : isDigitC (digitC d) = true ∧ charVal (digitC d) = d % 10 := by
  unfold digitC isDigitC charVal
  have h : d % 10 < 10 := Nat.mod_lt _ (by norm_num)
  set k := d % 10 with hk
  interval_cases k <;> exact ⟨by decide, by decide⟩

theorem digit_char_plain (c : Char) (h : isDigitC c = true) :
    isWs c = false ∧ c ≠ ',' ∧ c ≠ '\n' := by
  unfold isDigitC at h
  simp only [Bool.and_eq_true, decide_eq_true_eq] at h
  have key : ∀ cc : Char, c.toNat ≠ cc.toNat → c ≠ cc :=
    fun cc hne heq => hne (congrArg Char.toNat heq)
  have t32 : (' ' : Char).toNat = 32 := rfl
  have t9 : ('\t' : Char).toNat = 9 := rfl
  have t10 : ('\n' : Char).toNat = 10 := rfl
  have t13 : ('\r' : Char).toNat = 13 := rfl
  have t44 : (',' : Char).toNat = 44 := rfl
  refine ⟨?_, key ',' (by omega), key '\n' (by omega)⟩
  have h32 : c ≠ ' ' := key ' ' (by omega)
  have h9 : c ≠ '\t' := key '\t' (by omega)
  have h10 : c ≠ '\n' := key '\n' (by omega)
  have h13 : c ≠ '\r' := key '\r' (by omega)
  unfold isWs
  simp [h32, h9, h10, h13]

theorem scan2_pad2 (n : Nat) (h : n < 100) (r : Str) :
    scan2 (pad2 n ++ r) = some (n, r) := by
  have h1 := digitC_isDigit (n / 10)
  have h2 := digitC_isDigit n
  unfold pad2 scan2
  rw [List.cons_append, List.cons_append, List.nil_append]
  simp only [h1.1, h2.1, Bool.and_self, if_true, h1.2, h2.2, Option.some.injEq]
  rw [Prod.mk.injEq]
  exact ⟨by omega, rfl⟩

theorem scan4_pad4 (n : Nat) (h : n < 10000) (r : Str) :
    scan4 (pad4 n ++ r) = some (n, r) := by
  have h1 := digitC_isDigit (n / 1000)
  have h2 := digitC_isDigit (n / 100)
  have h3 := digitC_isDigit (n / 10)
  have h4 := digitC_isDigit n
  unfold pad4 scan4
  rw [List.cons_append, List.cons_append, List.cons_append, List.cons_append, List.nil_append]
  simp only [h1.1, h2.1, h3.1, h4.1, Bool.and_self, if_true, h1.2, h2.2, h3.2, h4.2,
    Option.some.injEq]
  rw [Prod.mk.injEq]
  exact ⟨by omega, rfl⟩

theorem expectC_cons (c : Char) (r : Str) : expectC c (c :: r) = some r := by
  simp [expectC]

theorem takeDigits_cons_digit (c : Char) (s : Str) (h : isDigitC c = true) :
    takeDigits (c :: s) = (charVal c :: (takeDigits s).1, (takeDigits s).2) := by
  simp [takeDigits, h]

theorem takeDigits_cons_nondigit (c : Char) (s : Str) (h : isDigitC c = false) :
    takeDigits (c :: s) = ([], c :: s) := by
  simp [takeDigits, h]

theorem isDigitC_plus : isDigitC '+' = false := by decide

theorem takeDigits_pad3 (q : Nat) (r : Str) :
    takeDigits (pad3 q ++ r)
      = (q / 100 % 10 :: q / 10 % 10 :: q % 10 :: (takeDigits r).1, (takeDigits r).2) := by
  have h1 := digitC_isDigit (q / 100)
  have h2 := digitC_isDigit (q / 10)
  have h3 := digitC_isDigit q
  unfold pad3
  rw [List.cons_append, List.cons_append, List.cons_append, List.nil_append]
  rw [takeDigits_cons_digit _ _ h1.1, takeDigits_cons_digit _ _ h2.1,
    takeDigits_cons_digit _ _ h3.1]
  simp [h1.2, h2.2, h3.2]

theorem nanoOfDigits_three (a b c : Nat) :
    nanoOfDigits [a, b, c] = ((a * 10 + b) * 10 + c) * 1000000 := by
  simp [nanoOfDigits, List.take, List.replicate, List.foldl]
  ring

theorem nanoOfDigits_six (a b c d e f : Nat) :
    nanoOfDigits [a, b, c, d, e, f]
      = (((((a * 10 + b) * 10 + c) * 10 + d) * 10 + e) * 10 + f) * 1000 := by
  simp [nanoOfDigits, List.take, List.replicate, List.foldl]
  ring

theorem nanoOfDigits_nine (a b c d e f g h i : Nat) :
    nanoOfDigits [a, b, c, d, e, f, g, h, i]
      = ((((((((a * 10 + b) * 10 + c) * 10 + d) * 10 + e) * 10 + f) * 10 + g) * 10 + h) * 10 + i) := by
  simp [nanoOfDigits, List.take, List.replicate, List.foldl]

theorem takeDigits_plus (s : Str) : takeDigits ('+' :: s) = ([], '+' :: s) :=
  takeDigits_cons_nondigit _ _ isDigitC_plus

theorem scanFrac_dot (r : Str) (d : Nat) (ds : List Nat) (rest : Str)
    (h : takeDigits r = (d :: ds, rest)) :
    scanFrac ('.' :: r) = some (nanoOfDigits (d :: ds), rest) := by
  simp only [scanFrac, if_true]
  rw [h]

theorem scanFrac_nondot (c : Char) (r : Str) (h : c ≠ '.') :
    scanFrac (c :: r) = some (0, c :: r) := by
  simp only [scanFrac]
  rw [if_neg h]

theorem scanFrac_fracStr (nano : Nat) (h : nano < 1000000000) (s : Str) :
    scanFrac (fracStr nano ++ '+' :: s) = some (nano, '+' :: s) := by
  unfold fracStr
  by_cases h0 : nano = 0
  · rw [if_pos h0, List.nil_append, scanFrac_nondot _ _ (by decide), h0]
  · rw [if_neg h0]
    by_cases h6 : nano % 1000000 = 0
    · rw [if_pos h6, List.cons_append]
      have htd : takeDigits (pad3 (nano / 1000000) ++ '+' :: s)
          = (nano / 1000000 / 100 % 10 :: nano / 1000000 / 10 % 10
              :: nano / 1000000 % 10 :: [], '+' :: s) := by
        rw [takeDigits_pad3, takeDigits_plus]
      rw [scanFrac_dot _ _ _ _ htd, nanoOfDigits_three]
      simp only [Option.some.injEq, Prod.mk.injEq, and_true]
      omega
    · rw [if_neg h6]
      by_cases h3 : nano % 1000 = 0
      · rw [if_pos h3, List.cons_append]
        have htd : takeDigits (pad6 (nano / 1000) ++ '+' :: s)
            = (nano / 1000 / 1000 / 100 % 10 :: nano / 1000 / 1000 / 10 % 10
                :: nano / 1000 / 1000 % 10 :: nano / 1000 / 100 % 10
                :: nano / 1000 / 10 % 10 :: nano / 1000 % 10 :: [], '+' :: s) := by
          unfold pad6
          rw [List.append_assoc, takeDigits_pad3, takeDigits_pad3, takeDigits_plus]
        rw [scanFrac_dot _ _ _ _ htd, nanoOfDigits_six]
        simp only [Option.some.injEq, Prod.mk.injEq, and_true]
        omega
      · rw [if_neg h3, List.cons_append]
        have htd : takeDigits (pad9 nano ++ '+' :: s)
            = (nano / 1000000 / 100 % 10 :: nano / 1000000 / 10 % 10
                :: nano / 1000000 % 10 :: nano / 1000 / 100 % 10
                :: nano / 1000 / 10 % 10 :: nano / 1000 % 10
                :: nano / 100 % 10 :: nano / 10 % 10 :: nano % 10 :: [], '+' :: s) := by
          unfold pad9
          rw [List.append_assoc, List.append_assoc, takeDigits_pad3, takeDigits_pad3,
            takeDigits_pad3, takeDigits_plus]
        rw [scanFrac_dot _ _ _ _ htd, nanoOfDigits_nine]
        simp only [Option.some.injEq, Prod.mk.injEq, and_true]
        omega

theorem applyOffset_zero (t : Timestamp) (hh : t.hour ≤ 23) (hmi : t.minute ≤ 59)
    (hse : t.second ≤ 59) : applyOffset t 0 = t := by
  rcases t with ⟨y, mo, d, hr, mi, se, na⟩
  simp only at hh hmi hse
  unfold applyOffset Timestamp.timeOfDay
  simp only []
  rw [if_neg (by push_cast; omega), if_neg (by push_cast; omega)]
  simp only [Timestamp.mk.injEq]
  exact ⟨trivial, trivial, trivial, by omega, by omega, by omega, trivial⟩

theorem scanSep_T (r : Str) : scanSep ('T' :: r) = some r := by
  simp [scanSep]

theorem daysInMonth_le31 (y : Int) (m : Nat) : daysInMonth y m ≤ 31 := by
  unfold daysInMonth
  split
  · split <;> omega
  · split <;> omega

theorem parseRfc3339_toRfc3339 (t : Timestamp) (h : t.wf) :
    parseRfc3339 (toRfc3339 t) = some t := by
  obtain ⟨hy0, hy1, hm0, hm1, hd0, hd1, hhr, hmi, hse, hna⟩ := h
  have s1 := scan4_pad4 t.year.toNat (by omega)
  have s2 := scan2_pad2 t.month (by omega)
  have s3 := scan2_pad2 t.day (by have := daysInMonth_le31 t.year t.month; omega)
  have s4 := scan2_pad2 t.hour (by omega)
  have s5 := scan2_pad2 t.minute (by omega)
  have s6 := scan2_pad2 t.second (by omega)
  have sF := scanFrac_fracStr t.nano (by omega)
  have sO : scanOffset ('+' :: '0' :: '0' :: ':' :: '0' :: '0' :: []) = some (0, []) := by decide
  have hyn : ((t.year.toNat : Int)) = t.year := Int.toNat_of_nonneg hy0
  unfold toRfc3339 parseRfc3339
  simp only [List.cons_append, List.append_assoc, List.nil_append, s1, s2, s3, s4, s5, s6,
    sF, sO, expectC_cons, scanSep_T]
  rw [if_pos]
  · rw [if_neg (by omega)]
    simp only [Option.some.injEq]
    rw [hyn]
    exact applyOffset_zero _ hhr hmi hse
  · refine ⟨trivial, hm0, hm1, hd0, ?_, hhr, hmi, by omega⟩
    rw [hyn]
    exact hd1

theorem mem_pad2 (n : Nat) (c : Char) (h : c ∈ pad2 n) : isDigitC c = true := by
  unfold pad2 at h
  simp only [List.mem_cons, List.not_mem_nil, or_false] at h
  rcases h with rfl | rfl <;> exact (digitC_isDigit _).1

theorem mem_pad3 (n : Nat) (c : Char) (h : c ∈ pad3 n) : isDigitC c = true := by
  unfold pad3 at h
  simp only [List.mem_cons, List.not_mem_nil, or_false] at h
  rcases h with rfl | rfl | rfl <;> exact (digitC_isDigit _).1

theorem mem_pad4 (n : Nat) (c : Char) (h : c ∈ pad4 n) : isDigitC c = true := by
  unfold pad4 at h
  simp only [List.mem_cons, List.not_mem_nil, or_false] at h
  rcases h with rfl | rfl | rfl | rfl <;> exact (digitC_isDigit _).1

theorem mem_fracStr (n : Nat) (c : Char) (h : c ∈ fracStr n) :
    isDigitC c = true ∨ c = '.' := by
  unfold fracStr at h
  split at h
  · exact absurd h (List.not_mem_nil c)
  · split at h
    · rcases List.mem_cons.mp h with rfl | h
      · exact Or.inr rfl
      · exact Or.inl (mem_pad3 _ _ h)
    · split at h
      · rcases List.mem_cons.mp h with rfl | h
        · exact Or.inr rfl
        · unfold pad6 at h
          rcases List.mem_append.mp h with h | h <;> exact Or.inl (mem_pad3 _ _ h)
      · rcases List.mem_cons.mp h with rfl | h
        · exact Or.inr rfl
        · unfold pad9 at h
          rcases List.mem_append.mp h with h | h
          · rcases List.mem_append.mp h with h | h <;> exact Or.inl (mem_pad3 _ _ h)
          · exact Or.inl (mem_pad3 _ _ h)

/-- The plainness facts needed of one leading punctuation mark followed by a
two-digit block. -/
theorem plain_of_block (c lead : Char) (n : Nat)
    (hlead : isWs lead = false ∧ lead ≠ ',' ∧ lead ≠ '\n')
    (h : c ∈ lead :: pad2 n) : isWs c = false ∧ c ≠ ',' ∧ c ≠ '\n' := by
  rcases List.mem_cons.mp h with rfl | h
  · exact hlead
  · exact digit_char_plain c (mem_pad2 _ _ h)

/-- Every character of a formatted timestamp is a digit or fixed punctuation;
in particular none is whitespace, a comma or a newline. -/
theorem toRfc3339_chars (t : Timestamp) (c : Char) (h : c ∈ toRfc3339 t) :
    isWs c = false ∧ c ≠ ',' ∧ c ≠ '\n' := by
  unfold toRfc3339 at h
  rcases List.mem_append.mp h with h | h
  swap
  · have : ∀ cc ∈ ('+' :: '0' :: '0' :: ':' :: '0' :: '0' :: []),
        isWs cc = false ∧ cc ≠ ',' ∧ cc ≠ '\n' := by decide
    exact this c h
  rcases List.mem_append.mp h with h | h
  swap
  · rcases mem_fracStr _ _ h with hd | rfl
    · exact digit_char_plain c hd
    · exact ⟨by decide, by decide, by decide⟩
  rcases List.mem_append.mp h with h | h
  swap
  · exact plain_of_block c ':' _ ⟨by decide, by decide, by decide⟩ h
  rcases List.mem_append.mp h with h | h
  swap
  · exact plain_of_block c ':' _ ⟨by decide, by decide, by decide⟩ h
  rcases List.mem_append.mp h with h | h
  swap
  · exact plain_of_block c 'T' _ ⟨by decide, by decide, by decide⟩ h
  rcases List.mem_append.mp h with h | h
  swap
  · exact plain_of_block c '-' _ ⟨by decide, by decide, by decide⟩ h
  rcases List.mem_append.mp h with h | h
  · exact digit_char_plain c (mem_pad4 _ _ h)
  · exact plain_of_block c '-' _ ⟨by decide, by decide, by decide⟩ h

theorem dropWhile_eq_self_of_all (p : Char → Bool) (l : Str)
    (h : ∀ c ∈ l, p c = false) : l.dropWhile p = l := by
  cases l with
  | nil => rfl
  | cons a r =>
    rw [List.dropWhile_cons, h a (List.mem_cons_self a r)]
    simp

theorem trimStr_eq_self (l : Str) (h : ∀ c ∈ l, isWs c = false) : trimStr l = l := by
  unfold trimStr
  rw [dropWhile_eq_self_of_all _ _ h,
    dropWhile_eq_self_of_all _ _ (fun c hc => h c (List.mem_reverse.mp hc)),
    List.reverse_reverse]

theorem splitOnChar_sep_free (sep : Char) (l : Str) (h : ∀ c ∈ l, c ≠ sep) :
    splitOnChar sep l = [l] := by
  induction l with
  | nil => rfl
  | cons a r ih =>
    simp only [splitOnChar]
    rw [if_neg (h a (List.mem_cons_self a r)),
      ih (fun c hc => h c (List.mem_cons_of_mem a hc))]

theorem splitOnChar_append_sep (sep : Char) (l1 l2 : Str) (h : ∀ c ∈ l1, c ≠ sep) :
    splitOnChar sep (l1 ++ sep :: l2) = l1 :: splitOnChar sep l2 := by
  induction l1 with
  | nil =>
    rw [List.nil_append]
    simp only [splitOnChar]
    rw [if_pos trivial]
  | cons a r ih =>
    rw [List.cons_append]
    simp only [splitOnChar]
    rw [if_neg (h a (List.mem_cons_self a r)),
      ih (fun c hc => h c (List.mem_cons_of_mem a hc))]

/-- `parse_event` on a line whose comma-split yields exactly two columns. -/
theorem parseEvent_two_cols (line c0 c1 : Str)
    (hsplit : (splitOnChar ',' line).map trimStr = [c0, c1]) :
    parseEvent line =
      match (if c0 = clockInTok then some EventKind.ClockIn
             else if c0 = clockOutTok then some EventKind.ClockOut
             else none) with
      | none => .error ("Unknown event kind ".toList ++ c0)
      | some kind =>
        match parseRfc3339 c1 with
        | none => .error ("Could not parse ".toList ++ c1 ++ " as datetime".toList)
        | some dt => .ok ⟨kind, dt⟩ := by
  unfold parseEvent
  rw [hsplit]

theorem mem_of_all_not_ws (l : Str) (hl : l.all (fun c => !isWs c) = true) :
    ∀ c ∈ l, isWs c = false := by
  intro c hc
  have := List.all_eq_true.mp hl c hc
  simpa using this

/-- Round trip of a single persisted line. -/
theorem parseEvent_eventToStr (e : Event) (h : e.dt.wf) :
    parseEvent (eventToStr e) = .ok e := by
  rcases e with ⟨k, t⟩
  have hrt := parseRfc3339_toRfc3339 t h
  have hnc : ∀ c ∈ toRfc3339 t, c ≠ ',' := fun c hc => (toRfc3339_chars t c hc).2.1
  have hnw : ∀ c ∈ toRfc3339 t, isWs c = false := fun c hc => (toRfc3339_chars t c hc).1
  cases k
  case ClockIn =>
    have hsplit : (splitOnChar ',' (eventToStr ⟨.ClockIn, t⟩)).map trimStr
        = [clockInTok, toRfc3339 t] := by
      show (splitOnChar ',' (clockInTok ++ ',' :: toRfc3339 t)).map trimStr = _
      rw [splitOnChar_append_sep ',' clockInTok (toRfc3339 t) (by decide),
        splitOnChar_sep_free ',' (toRfc3339 t) hnc,
        List.map_cons, List.map_cons, List.map_nil,
        show trimStr clockInTok = clockInTok from by decide,
        trimStr_eq_self _ hnw]
    rw [parseEvent_two_cols _ _ _ hsplit, if_pos rfl, hrt]
  case ClockOut =>
    have hsplit : (splitOnChar ',' (eventToStr ⟨.ClockOut, t⟩)).map trimStr
        = [clockOutTok, toRfc3339 t] := by
      show (splitOnChar ',' (clockOutTok ++ ',' :: toRfc3339 t)).map trimStr = _
      rw [splitOnChar_append_sep ',' clockOutTok (toRfc3339 t) (by decide),
        splitOnChar_sep_free ',' (toRfc3339 t) hnc,
        List.map_cons, List.map_cons, List.map_nil,
        show trimStr clockOutTok = clockOutTok from by decide,
        trimStr_eq_self _ hnw]
    rw [parseEvent_two_cols _ _ _ hsplit, if_neg (by decide), if_pos rfl, hrt]

theorem eventToStr_not_blank (e : Event) : isBlank (eventToStr e) = false := by
  rcases e with ⟨k, t⟩
  have hnw : ∀ c ∈ toRfc3339 t, isWs c = false := fun c hc => (toRfc3339_chars t c hc).1
  cases k
  case ClockIn =>
    show isBlank (clockInTok ++ ',' :: toRfc3339 t) = false
    have hall : ∀ c ∈ clockInTok ++ ',' :: toRfc3339 t, isWs c = false := by
      intro c hc
      rcases List.mem_append.mp hc with hc | hc
      · exact mem_of_all_not_ws clockInTok (by decide) c hc
      · rcases List.mem_cons.mp hc with rfl | hc
        · decide
        · exact hnw c hc
    unfold isBlank
    rw [trimStr_eq_self _ hall]
    rfl
  case ClockOut =>
    show isBlank (clockOutTok ++ ',' :: toRfc3339 t) = false
    have hall : ∀ c ∈ clockOutTok ++ ',' :: toRfc3339 t, isWs c = false := by
      intro c hc
      rcases List.mem_append.mp hc with hc | hc
      · exact mem_of_all_not_ws clockOutTok (by decide) c hc
      · rcases List.mem_cons.mp hc with rfl | hc
        · decide
        · exact hnw c hc
    unfold isBlank
    rw [trimStr_eq_self _ hall]
    rfl

/- ----------------------------------------------------------------
   Claim theorems: the persisted format (C8, C9, C1).
   ---------------------------------------------------------------- -/

/-- C8: serializing any list of events (each expressible in the persisted
format: four-digit year, valid civil fields, no leap second) to one line per
event and reading the lines back yields the same list: kind and the
UTC instant, including nanoseconds, are preserved exactly. -/
theorem persisted_roundtrip (evs : List Event) (h : ∀ e ∈ evs, e.dt.wf) :
    readEventLines (evs.map eventToStr) = .ok evs := by
  induction evs with
  | nil => rfl
  | cons e r ih =>
    unfold readEventLines
    rw [List.map_cons,
      List.filter_cons_of_pos (by rw [eventToStr_not_blank]; rfl),
      List.mapM_cons, parseEvent_eventToStr e (h e (List.mem_cons_self e r))]
    have ihr : readEventLines (r.map eventToStr) = .ok r :=
      ih (fun x hx => h x (List.mem_cons_of_mem e hx))
    unfold readEventLines at ihr
    rw [ihr]
    rfl

/-- Closed instance of the round-trip theorem on a two-event list with a
fractional-second timestamp. -/
theorem persisted_roundtrip_witness :
    readEventLines ([⟨.ClockIn, ⟨2020, 1, 31, 8, 15, 0, 0⟩⟩,
        ⟨.ClockOut, ⟨2020, 1, 31, 16, 15, 0, 123000000⟩⟩].map eventToStr)
      = .ok [⟨.ClockIn, ⟨2020, 1, 31, 8, 15, 0, 0⟩⟩,
        ⟨.ClockOut, ⟨2020, 1, 31, 16, 15, 0, 123000000⟩⟩] :=
  persisted_roundtrip _ (by decide)

deriving instance DecidableEq for Except

/-- Did a fallible computation succeed? -/
def isOkE {ε α : Type} : Except ε α → Bool
  | .ok _ => true
  | .error _ => false

theorem except_bind_error {ε α β : Type} (e : ε) (f : α → Except ε β) :
    (Except.error e >>= f) = Except.error e := rfl

theorem except_bind_ok {ε α β : Type} (x : α) (f : α → Except ε β) :
    (Except.ok x >>= f) = f x := rfl

theorem mapM_except_isOk {ε α β : Type} (f : α → Except ε β) :
    ∀ l : List α, isOkE (l.mapM f) = true ↔ ∀ a ∈ l, isOkE (f a) = true := by
  intro l
  induction l with
  | nil =>
    constructor
    · intro _ a ha
      exact absurd ha (List.not_mem_nil a)
    · intro _
      rfl
  | cons a r ih =>
    rw [List.mapM_cons]
    cases hfa : f a with
    | error err =>
      rw [except_bind_error]
      constructor
      · intro hok
        exact absurd hok (by simp [isOkE])
      · intro hall
        have hcontra := hall a (List.mem_cons_self a r)
        rw [hfa] at hcontra
        exact absurd hcontra (by simp [isOkE])
    | ok b =>
      rw [except_bind_ok]
      cases hr : r.mapM f with
      | error err =>
        rw [except_bind_error]
        constructor
        · intro hok
          exact absurd hok (by simp [isOkE])
        · intro hall
          have hrest := ih.mpr (fun x hx => hall x (List.mem_cons_of_mem a hx))
          rw [hr] at hrest
          exact absurd hrest (by simp [isOkE])
      | ok bs =>
        rw [except_bind_ok]
        constructor
        · intro _ x hx
          rcases List.mem_cons.mp hx with rfl | hx
          · rw [hfa]; rfl
          · exact (ih.mp (by rw [hr]; rfl)) x hx
        · intro _
          rfl

/-- C9: reading a partition's content succeeds exactly when every non-blank
line parses, so one malformed non-blank line (wrong column count, unknown
kind token, or unparsable timestamp) fails the whole read and no bad line is
skipped; and inserting a blank line anywhere leaves the read's result
unchanged. -/
theorem readEvents_malformed_and_blank :
    (∀ content : Str, isOkE (readEventsContent content) = true
      ↔ ∀ l ∈ splitOnChar '\n' content, isBlank l = false → isOkE (parseEvent l) = true) ∧
    (∀ (ls1 ls2 : List Str) (b : Str), isBlank b = true →
      readEventLines (ls1 ++ b :: ls2) = readEventLines (ls1 ++ ls2)) := by
  constructor
  · intro content
    unfold readEventsContent readEventLines
    rw [mapM_except_isOk]
    constructor
    · intro hall l hl hbl
      exact hall l (List.mem_filter.mpr ⟨hl, by rw [hbl]; rfl⟩)
    · intro hall l hl
      have hm := List.mem_filter.mp hl
      refine hall l hm.1 ?_
      have hb := hm.2
      simp only [Bool.not_eq_true'] at hb
      exact hb
  · intro ls1 ls2 b hb
    unfold readEventLines
    rw [List.filter_append, List.filter_append, List.filter_cons_of_neg (by simp [hb])]

/-- Closed instance of the malformed-and-blank theorem: content with a blank
line and a malformed line fails to read, and a whitespace-only line inserted
between two good lines does not change the result. -/
theorem readEvents_malformed_and_blank_witness :
    isOkE (readEventsContent ("clock-in,2020-01-31T08:15:00+00:00\n\ngarbage".toList)) = false ∧
    readEventLines (["clock-in,2020-01-31T08:15:00+00:00".toList]
        ++ " ".toList :: ["clock-out,2020-01-31T16:15:00+00:00".toList])
      = readEventLines (["clock-in,2020-01-31T08:15:00+00:00".toList]
        ++ ["clock-out,2020-01-31T16:15:00+00:00".toList]) := by
  constructor
  · have h := readEvents_malformed_and_blank.1
      ("clock-in,2020-01-31T08:15:00+00:00\n\ngarbage".toList)
    rw [Bool.eq_false_iff]
    intro hok
    have hbad := h.mp hok ("garbage".toList) (by decide) (by decide)
    exact absurd hbad (by decide)
  · exact readEvents_malformed_and_blank.2 _ _ _ (by decide)

/-- C1 fails on the code: `delete_event` writes the remaining events
concatenated with NO newline separator (a bare `collect::<String>()`, unlike
the `join` with a newline used by `create_event`). After deleting position 0
from a three-event partition, the two remaining events end up on one line,
and reading the partition back fails with a misformatted-line error instead
of returning the original list with position 0 removed. -/
theorem delete_then_read_fails_on_three_events :
    readEventsContent ("clock-in,2020-01-31T08:15:00+00:00\nclock-out,2020-01-31T12:15:00+00:00\nclock-in,2020-01-31T13:15:00+00:00".toList)
      = .ok [⟨.ClockIn, ⟨2020, 1, 31, 8, 15, 0, 0⟩⟩, ⟨.ClockOut, ⟨2020, 1, 31, 12, 15, 0, 0⟩⟩,
          ⟨.ClockIn, ⟨2020, 1, 31, 13, 15, 0, 0⟩⟩] ∧
    deleteEventContent ("clock-in,2020-01-31T08:15:00+00:00\nclock-out,2020-01-31T12:15:00+00:00\nclock-in,2020-01-31T13:15:00+00:00".toList) 0
      = .ok ("clock-out,2020-01-31T12:15:00+00:00clock-in,2020-01-31T13:15:00+00:00".toList) ∧
    readEventsContent ("clock-out,2020-01-31T12:15:00+00:00clock-in,2020-01-31T13:15:00+00:00".toList)
      = .error ("Misformatted line: clock-out,2020-01-31T12:15:00+00:00clock-in,2020-01-31T13:15:00+00:00".toList) := by
  exact ⟨by decide, by decide, by decide⟩

end BusyBee
